import Mathlib

/- Shallow embedding of the resilience layer of the LLM-summarizer
   repository: the retry-with-exponential-backoff wrapper, the circuit
   breaker and the rate limiter (src/utils/retry.py), the file-tracking
   database (src/utils/database.py), the batch processor and the result
   cache (src/utils/async_processor.py), and the per-item pipeline of
   main_refactored.py.  Wall-clock instants and durations are modelled as
   rationals; a sleep is modelled as exact (waking up precisely after the
   requested duration). -/

namespace LLMSum

/-- Trace of one run of a function wrapped by exponential_backoff_retry:
the final outcome (a value or the exception that escaped), how many times
the wrapped function was invoked, and the sleeps performed between
attempts, in order. -/
structure RetryTrace (E A : Type) where
  result : Except E A
  invocations : Nat
  sleeps : List ℚ

/-- Loop of the wrapper produced by exponential_backoff_retry
(src/utils/retry.py lines 69-96).  The argument f gives the outcome of the
n-th invocation of the wrapped function (0-indexed attempt counter) and
retryable says whether an exception belongs to the configured retryable
exception classes.  The argument remaining is the number of attempts still
allowed after the current one (max_retries minus attempt) and delay is the
current value of the delay variable.  On a retryable exception with
attempts left, the code first updates delay to
min (delay * exponential_base) max_delay and then sleeps for that updated
delay; on the last attempt the exception is re-raised unchanged; a
non-retryable exception propagates immediately. -/
def retryAux {E A : Type} (retryable : E → Bool) (expBase maxDelay : ℚ)
    (f : Nat → Except E A) (attempt remaining : Nat) (delay : ℚ) :
    RetryTrace E A :=
  match f attempt with
  | Except.ok a => ⟨Except.ok a, 1, []⟩
  | Except.error e =>
    if retryable e then
      match remaining with
      | 0 => ⟨Except.error e, 1, []⟩
      | Nat.succ r =>
        let d := min (delay * expBase) maxDelay
        let t := retryAux retryable expBase maxDelay f (attempt + 1) r d
        ⟨t.result, t.invocations + 1, d :: t.sleeps⟩
    else ⟨Except.error e, 1, []⟩
  termination_by remaining

/-- Wrapper semantics of exponential_backoff_retry (src/utils/retry.py):
the loop runs attempts 0 .. max_retries with delay initialised to
initial_delay. -/
def exponential_backoff_retry {E A : Type} (max_retries : Nat)
    (initial_delay exponential_base max_delay : ℚ) (retryable : E → Bool)
    (f : Nat → Except E A) : RetryTrace E A :=
  retryAux retryable exponential_base max_delay f 0 max_retries initial_delay

/-- The n-th invocation of the wrapped function raises an exception that
belongs to the retryable set. -/
def retryableFailure {E A : Type} (retryable : E → Bool)
    (f : Nat → Except E A) (n : Nat) : Prop :=
  ∃ e, f n = Except.error e ∧ retryable e = true

lemma retryAux_ok {E A : Type} {retryable : E → Bool} {b M : ℚ}
    {f : Nat → Except E A} {attempt : Nat} {a : A}
    (h : f attempt = Except.ok a) (remaining : Nat) (delay : ℚ) :
    retryAux retryable b M f attempt remaining delay =
      ⟨Except.ok a, 1, []⟩ := by
  rw [retryAux.eq_def, h]

lemma retryAux_error_zero {E A : Type} {retryable : E → Bool} {b M : ℚ}
    {f : Nat → Except E A} {attempt : Nat} {e : E}
    (h : f attempt = Except.error e) (hr : retryable e = true) (delay : ℚ) :
    retryAux retryable b M f attempt 0 delay =
      ⟨Except.error e, 1, []⟩ := by
  rw [retryAux.eq_def, h]
  simp [hr]

lemma retryAux_error_succ {E A : Type} {retryable : E → Bool} {b M : ℚ}
    {f : Nat → Except E A} {attempt : Nat} {e : E}
    (h : f attempt = Except.error e) (hr : retryable e = true)
    (r : Nat) (delay : ℚ) :
    retryAux retryable b M f attempt (r + 1) delay =
      ⟨(retryAux retryable b M f (attempt + 1) r (min (delay * b) M)).result,
       (retryAux retryable b M f (attempt + 1) r
           (min (delay * b) M)).invocations + 1,
       min (delay * b) M ::
         (retryAux retryable b M f (attempt + 1) r
             (min (delay * b) M)).sleeps⟩ := by
  rw [retryAux.eq_def, h]
  simp [hr]

/-- Modelled from the amended claim C1: the sleep schedule actually
produced by the code on an all-retryable-failure run.  The first sleep is
min (initial_delay * exponential_base) max_delay and each subsequent sleep
is the previous sleep multiplied by exponential_base, capped at
max_delay. -/
def specDelaySchedule (delay expBase maxDelay : ℚ) : Nat → List ℚ
  | 0 => []
  | Nat.succ n =>
    min (delay * expBase) maxDelay ::
      specDelaySchedule (min (delay * expBase) maxDelay) expBase maxDelay n

/-- Modelled from the words of claim C1 as stated: the first sleep equals
initial_delay, and each subsequent sleep is the previous delay multiplied
by exponential_base, capped at max_delay (so with initial_delay = 1 and
base = 2 the sleeps would be 1, 2, 4, ...). -/
def claimedDelaySchedule (delay expBase maxDelay : ℚ) : Nat → List ℚ
  | 0 => []
  | Nat.succ n =>
    delay ::
      claimedDelaySchedule (min (delay * expBase) maxDelay) expBase maxDelay n

lemma retryAux_allFail {E A : Type} (retryable : E → Bool) (b M : ℚ)
    (f : Nat → Except E A) (hfail : ∀ n, retryableFailure retryable f n) :
    ∀ remaining attempt delay,
      retryAux retryable b M f attempt remaining delay =
        ⟨f (attempt + remaining), remaining + 1,
          specDelaySchedule delay b M remaining⟩ := by
  intro remaining
  induction remaining with
  | zero =>
    intro attempt delay
    obtain ⟨e, he, hr⟩ := hfail attempt
    rw [retryAux_error_zero he hr]
    simp only [Nat.add_zero, he, Nat.zero_add, specDelaySchedule]
  | succ r ih =>
    intro attempt delay
    obtain ⟨e, he, hr⟩ := hfail attempt
    rw [retryAux_error_succ he hr, ih (attempt + 1)]
    simp only [specDelaySchedule]
    rw [show attempt + 1 + r = attempt + (r + 1) by omega]

lemma retryAux_success {E A : Type} (retryable : E → Bool) (b M : ℚ)
    (f : Nat → Except E A) :
    ∀ k attempt remaining delay a,
      f (attempt + k) = Except.ok a →
      (∀ j, j < k → retryableFailure retryable f (attempt + j)) →
      k ≤ remaining →
      retryAux retryable b M f attempt remaining delay =
        ⟨Except.ok a, k + 1, specDelaySchedule delay b M k⟩ := by
  intro k
  induction k with
  | zero =>
    intro attempt remaining delay a hok _ _
    simp only [Nat.add_zero] at hok
    rw [retryAux_ok hok]
    simp [specDelaySchedule]
  | succ k ih =>
    intro attempt remaining delay a hok hfail hle
    obtain ⟨e, he, hr⟩ : retryableFailure retryable f attempt := by
      have := hfail 0 (Nat.succ_pos k)
      rwa [Nat.add_zero] at this
    cases remaining with
    | zero => exact absurd hle (by omega)
    | succ r =>
      have hok' : f (attempt + 1 + k) = Except.ok a := by
        rw [show attempt + 1 + k = attempt + (k + 1) by omega]
        exact hok
      have hfail' : ∀ j, j < k →
          retryableFailure retryable f (attempt + 1 + j) := by
        intro j hj
        rw [show attempt + 1 + j = attempt + (j + 1) by omega]
        exact hfail (j + 1) (by omega)
      rw [retryAux_error_succ he hr,
        ih (attempt + 1) r (min (delay * b) M) a hok' hfail' (by omega)]
      simp [specDelaySchedule]

lemma retryAux_invocations_le {E A : Type} (retryable : E → Bool) (b M : ℚ)
    (f : Nat → Except E A) :
    ∀ remaining attempt delay,
      (retryAux retryable b M f attempt remaining delay).invocations ≤
        remaining + 1 := by
  intro remaining
  induction remaining with
  | zero =>
    intro attempt delay
    cases hf : f attempt with
    | ok a => rw [retryAux_ok hf]
    | error e =>
      by_cases hr : retryable e = true
      · rw [retryAux_error_zero hf hr]
      · rw [retryAux.eq_def, hf]
        simp [hr]
  | succ r ih =>
    intro attempt delay
    cases hf : f attempt with
    | ok a =>
      rw [retryAux_ok hf]
      show (1 : Nat) ≤ r + 1 + 1
      omega
    | error e =>
      by_cases hr : retryable e = true
      · rw [retryAux_error_succ hf hr]
        have := ih (attempt + 1) (min (delay * b) M)
        simp only []
        omega
      · rw [retryAux.eq_def, hf]
        simp [hr]

/-- C1 (counterexample): with max_retries = 3, initial_delay = 1,
exponential_base = 2, max_delay = 60 and a wrapped function that always
raises a retryable exception, the sleeps performed are 2, 4, 8 — not the
1, 2, 4 schedule the claim asserts (first sleep equal to initial_delay),
because the code multiplies delay by the base before the first sleep. -/
theorem C1_counterexample :
    (exponential_backoff_retry 3 1 2 60 (fun _ : Unit => true)
        (fun _ => Except.error ()) : RetryTrace Unit Unit).sleeps =
      [2, 4, 8] ∧
    (exponential_backoff_retry 3 1 2 60 (fun _ : Unit => true)
        (fun _ => Except.error ()) : RetryTrace Unit Unit).sleeps ≠
      claimedDelaySchedule 1 2 60 3 := by
  have h : (exponential_backoff_retry 3 1 2 60 (fun _ : Unit => true)
      (fun _ => Except.error ()) : RetryTrace Unit Unit).sleeps =
      [2, 4, 8] := by
    rw [exponential_backoff_retry,
      retryAux_allFail _ _ _ _ (fun n => ⟨(), rfl, rfl⟩)]
    show specDelaySchedule 1 2 60 3 = [2, 4, 8]
    rw [show (3 : Nat) = 2 + 1 from rfl, specDelaySchedule,
      show (2 : Nat) = 1 + 1 from rfl, specDelaySchedule,
      show (1 : Nat) = 0 + 1 from rfl, specDelaySchedule, specDelaySchedule]
    norm_num [min_def]
  refine ⟨h, ?_⟩
  rw [h]
  have hclaim : claimedDelaySchedule 1 2 60 3 =
      1 :: claimedDelaySchedule (min (1 * 2) 60) 2 60 2 := by
    rw [show (3 : Nat) = 2 + 1 from rfl, claimedDelaySchedule]
  intro hcontra
  rw [hclaim] at hcontra
  have h1 : (2 : ℚ) = 1 := by
    have := congrArg (fun l : List ℚ => l.headD 0) hcontra
    simp only [List.headD_cons] at this
    exact this
  norm_num at h1

/-- C1 (amended): on a run in which every invocation raises a retryable
exception, the sleeps of the retry wrapper follow the schedule whose first
sleep is min (initial_delay * exponential_base) max_delay and in which
each subsequent sleep is the previous sleep multiplied by
exponential_base, capped at max_delay (so with initial_delay = 1 and
base = 2 the sleeps are 2, 4, 8, ...). -/
theorem C1_sleep_schedule {E A : Type} (max_retries : Nat)
    (initial_delay exponential_base max_delay : ℚ) (retryable : E → Bool)
    (f : Nat → Except E A)
    (hfail : ∀ n, retryableFailure retryable f n) :
    (exponential_backoff_retry max_retries initial_delay exponential_base
        max_delay retryable f).sleeps =
      specDelaySchedule initial_delay exponential_base max_delay
        max_retries := by
  rw [exponential_backoff_retry, retryAux_allFail _ _ _ _ hfail]

/-- C1 (witness): the amended schedule at a concrete input. -/
theorem C1_sleep_schedule_witness :
    (exponential_backoff_retry 3 1 2 60 (fun _ : Unit => true)
        (fun _ => Except.error ()) : RetryTrace Unit Unit).sleeps =
      specDelaySchedule 1 2 60 3 :=
  C1_sleep_schedule 3 1 2 60 (fun _ => true) (fun _ => Except.error ())
    (fun _ => ⟨(), rfl, rfl⟩)

/-- C4: the retry wrapper with max_retries = n invokes the wrapped
function at most n + 1 times; if every invocation raises a retryable
exception, exactly n + 1 invocations occur and the outcome is exactly the
outcome of the final attempt (the original exception re-raised unchanged);
if the k-th invocation (0-indexed) succeeds after retryable failures,
exactly k + 1 invocations occur and its value is returned. -/
theorem C4_attempt_count {E A : Type} (max_retries : Nat)
    (initial_delay exponential_base max_delay : ℚ) (retryable : E → Bool)
    (f : Nat → Except E A) :
    (exponential_backoff_retry max_retries initial_delay exponential_base
        max_delay retryable f).invocations ≤ max_retries + 1 ∧
    ((∀ n, retryableFailure retryable f n) →
      (exponential_backoff_retry max_retries initial_delay exponential_base
          max_delay retryable f).invocations = max_retries + 1 ∧
      (exponential_backoff_retry max_retries initial_delay exponential_base
          max_delay retryable f).result = f max_retries) ∧
    (∀ k a, f k = Except.ok a →
      (∀ j, j < k → retryableFailure retryable f j) →
      k ≤ max_retries →
      (exponential_backoff_retry max_retries initial_delay exponential_base
          max_delay retryable f).invocations = k + 1 ∧
      (exponential_backoff_retry max_retries initial_delay exponential_base
          max_delay retryable f).result = Except.ok a) := by
  refine ⟨?_, ?_, ?_⟩
  · exact retryAux_invocations_le _ _ _ _ max_retries 0 initial_delay
  · intro hfail
    rw [exponential_backoff_retry, retryAux_allFail _ _ _ _ hfail]
    simp
  · intro k a hok hfail hle
    rw [exponential_backoff_retry,
      retryAux_success retryable exponential_base max_delay f k 0 max_retries
        initial_delay a (by rw [Nat.zero_add]; exact hok)
        (fun j hj => by rw [Nat.zero_add]; exact hfail j hj) hle]
    simp

/-- C4 (witness): with max_retries = 3 and an always-retryably-failing
function, the wrapper performs exactly 4 invocations; with a function
succeeding on the 2nd call, exactly 2 invocations occur. -/
theorem C4_attempt_count_witness :
    (exponential_backoff_retry 3 1 2 60 (fun _ : Unit => true)
        (fun _ => Except.error ()) : RetryTrace Unit Unit).invocations = 4 ∧
    (exponential_backoff_retry 3 1 2 60 (fun _ : Unit => true)
        (fun n => if n = 0 then Except.error () else Except.ok ()) :
        RetryTrace Unit Unit).invocations = 2 := by
  constructor
  · exact ((C4_attempt_count 3 1 2 60 (fun _ => true)
      (fun _ => Except.error ())).2.1 (fun n => ⟨(), rfl, rfl⟩)).1
  · refine ((C4_attempt_count 3 1 2 60 (fun _ => true)
      (fun n => if n = 0 then Except.error () else Except.ok ())).2.2 1 ()
      rfl ?_ (by omega)).1
    intro j hj
    have hj0 : j = 0 := by omega
    subst hj0
    exact ⟨(), rfl, rfl⟩

/-- Phase of the circuit breaker state machine (src/utils/retry.py
line 24): CLOSED, OPEN or HALF_OPEN. -/
inductive CBPhase where
  | closed
  | opened
  | halfOpen
  deriving DecidableEq

/-- State of one CircuitBreaker instance (src/utils/retry.py lines 19-24):
failure_threshold and recovery_timeout are the configuration,
failure_count and last_failure_time the mutable bookkeeping, state the
phase. -/
structure CircuitBreaker where
  failure_threshold : Nat
  recovery_timeout : ℚ
  failure_count : Nat
  last_failure_time : ℚ
  state : CBPhase
  deriving DecidableEq

/-- Fresh breaker as built by CircuitBreaker.__init__: failure_count = 0,
last_failure_time = 0, state = CLOSED. -/
def CircuitBreaker.init (failure_threshold : Nat) (recovery_timeout : ℚ) :
    CircuitBreaker :=
  ⟨failure_threshold, recovery_timeout, 0, 0, CBPhase.closed⟩

/-- Error escaping CircuitBreaker.call: either the breaker's own
PaperpileNotionError rejection in the OPEN state (carrying the remaining
cooldown duration), or the wrapped call's exception propagated after
bookkeeping. -/
inductive CBError where
  | circuitOpenErr (remaining : ℚ)
  | wrapped (e : String)
  deriving DecidableEq

/-- Observable outcome of one CircuitBreaker.call: the result, the breaker
state afterwards, whether the wrapped function was invoked at all, and if
so in which phase the breaker was at the moment of invoking it. -/
structure CBCallResult (A : Type) where
  result : Except CBError A
  breaker : CircuitBreaker
  invoked : Bool
  evalPhase : Option CBPhase

/-- CircuitBreaker._record_failure (src/utils/retry.py lines 49-56):
increment failure_count, stamp last_failure_time, and open the circuit
once failure_count reaches failure_threshold. -/
def CircuitBreaker.recordFailure (cb : CircuitBreaker) (now : ℚ) :
    CircuitBreaker :=
  let cb1 := { cb with failure_count := cb.failure_count + 1,
                       last_failure_time := now }
  if cb1.failure_count ≥ cb1.failure_threshold then
    { cb1 with state := CBPhase.opened }
  else cb1

/-- CircuitBreaker.call (src/utils/retry.py lines 26-47), with the wall
clock passed explicitly and the wrapped call's behaviour given as the
outcome f it would produce if invoked now.  In the OPEN state, if the
elapsed time since the last failure exceeds recovery_timeout the breaker
moves to HALF_OPEN and lets the call through, otherwise it raises the
"circuit open" error without invoking the wrapped function.  A success in
the HALF_OPEN state resets the breaker to CLOSED with failure_count 0; an
exception is recorded and re-raised wrapped. -/
def CircuitBreaker.call {A : Type} (cb : CircuitBreaker) (now : ℚ)
    (f : Except String A) : CBCallResult A :=
  if cb.state = CBPhase.opened ∧
      ¬ now - cb.last_failure_time > cb.recovery_timeout then
    ⟨Except.error (CBError.circuitOpenErr
        (cb.recovery_timeout - (now - cb.last_failure_time))), cb, false,
      none⟩
  else
    let cb1 := if cb.state = CBPhase.opened then
                 { cb with state := CBPhase.halfOpen }
               else cb
    match f with
    | Except.ok a =>
      let cb2 := if cb1.state = CBPhase.halfOpen then
                   { cb1 with state := CBPhase.closed, failure_count := 0 }
                 else cb1
      ⟨Except.ok a, cb2, true, some cb1.state⟩
    | Except.error e =>
      ⟨Except.error (CBError.wrapped e), cb1.recordFailure now, true,
        some cb1.state⟩

/-- Breaker obtained from a fresh instance with failure_threshold = 3
after three consecutive wrapped-call exceptions at times t1, t2, t3. -/
def cbAfterThreeFailures (rt t1 t2 t3 : ℚ) (e1 e2 e3 : String) :
    CircuitBreaker :=
  ((((CircuitBreaker.init 3 rt).call t1
      (Except.error e1 : Except String Unit)).breaker.call t2
      (Except.error e2 : Except String Unit)).breaker.call t3
      (Except.error e3 : Except String Unit)).breaker

/-- C3: with failure_threshold = 3, the breaker stays closed after the
first two wrapped-call exceptions and is open after the third; while open,
a call before recovery_timeout has elapsed is rejected with the "circuit
open" error carrying the remaining cooldown, without invoking the wrapped
function and without changing the breaker; once the elapsed time since the
last failure exceeds recovery_timeout, the next call is evaluated in the
half_open phase, and a success transitions the breaker back to closed with
failure_count reset to 0. -/
theorem C3_circuit_breaker (rt t1 t2 t3 : ℚ) (e1 e2 e3 : String) :
    (((CircuitBreaker.init 3 rt).call t1
        (Except.error e1 : Except String Unit)).breaker).state =
      CBPhase.closed ∧
    ((((CircuitBreaker.init 3 rt).call t1
        (Except.error e1 : Except String Unit)).breaker.call t2
        (Except.error e2 : Except String Unit)).breaker).state =
      CBPhase.closed ∧
    (cbAfterThreeFailures rt t1 t2 t3 e1 e2 e3).state = CBPhase.opened ∧
    (∀ now : ℚ, ∀ g : Except String Unit, now - t3 < rt →
      ((cbAfterThreeFailures rt t1 t2 t3 e1 e2 e3).call now g).invoked =
        false ∧
      ((cbAfterThreeFailures rt t1 t2 t3 e1 e2 e3).call now g).result =
        Except.error (CBError.circuitOpenErr (rt - (now - t3))) ∧
      ((cbAfterThreeFailures rt t1 t2 t3 e1 e2 e3).call now g).breaker =
        cbAfterThreeFailures rt t1 t2 t3 e1 e2 e3) ∧
    (∀ now : ℚ, now - t3 > rt →
      ((cbAfterThreeFailures rt t1 t2 t3 e1 e2 e3).call now
          (Except.ok () : Except String Unit)).invoked = true ∧
      ((cbAfterThreeFailures rt t1 t2 t3 e1 e2 e3).call now
          (Except.ok () : Except String Unit)).evalPhase =
        some CBPhase.halfOpen ∧
      ((cbAfterThreeFailures rt t1 t2 t3 e1 e2 e3).call now
          (Except.ok () : Except String Unit)).result = Except.ok () ∧
      ((cbAfterThreeFailures rt t1 t2 t3 e1 e2 e3).call now
          (Except.ok () : Except String Unit)).breaker.state =
        CBPhase.closed ∧
      ((cbAfterThreeFailures rt t1 t2 t3 e1 e2 e3).call now
          (Except.ok () : Except String Unit)).breaker.failure_count = 0) := by
  have hc3 : cbAfterThreeFailures rt t1 t2 t3 e1 e2 e3 =
      ⟨3, rt, 3, t3, CBPhase.opened⟩ := rfl
  refine ⟨rfl, rfl, rfl, ?_, ?_⟩
  · intro now g hlt
    have h2 : now - t3 ≤ rt := le_of_lt hlt
    rw [hc3]
    constructor
    · simp [CircuitBreaker.call, h2]
    constructor
    · simp [CircuitBreaker.call, h2]
    · simp [CircuitBreaker.call, h2]
  · intro now hgt
    rw [hc3]
    refine ⟨?_, ?_, ?_, ?_, ?_⟩ <;>
      simp [CircuitBreaker.call, CircuitBreaker.recordFailure, hgt,
        not_lt.mpr, asymm hgt]

/-- C3 (witness): the breaker scenario at concrete times, with
recovery_timeout = 10, all three failures at time 0, a rejected call at
time 5 and a successful half-open call at time 11. -/
theorem C3_circuit_breaker_witness :
    (cbAfterThreeFailures 10 0 0 0 "a" "b" "c").state = CBPhase.opened ∧
    ((cbAfterThreeFailures 10 0 0 0 "a" "b" "c").call 5
        (Except.ok () : Except String Unit)).invoked = false ∧
    ((cbAfterThreeFailures 10 0 0 0 "a" "b" "c").call 11
        (Except.ok () : Except String Unit)).breaker.state =
      CBPhase.closed ∧
    ((cbAfterThreeFailures 10 0 0 0 "a" "b" "c").call 11
        (Except.ok () : Except String Unit)).breaker.failure_count = 0 := by
  have h := C3_circuit_breaker 10 0 0 0 "a" "b" "c"
  refine ⟨h.2.2.1, (h.2.2.2.1 5 (Except.ok ()) (by norm_num)).1, ?_, ?_⟩
  · exact (h.2.2.2.2 11 (by norm_num)).2.2.2.1
  · exact (h.2.2.2.2 11 (by norm_num)).2.2.2.2

/- Generic association-style list operations shared by the embeddings of
   the python dict (CacheManager.cache) and of the SQLite table keyed by
   its primary key (processed_files): insert-or-replace and key-uniqueness
   bookkeeping. -/

/-- Insert-or-replace on a list: if some element satisfies the match
predicate, every matching element is replaced by the new one (with unique
keys: exactly one); otherwise the new element is appended. -/
def upsertBy {α : Type} (sel : α → Bool) (new : α) (l : List α) :
    List α :=
  if l.any sel then
    l.map (fun x => if sel x then new else x)
  else l ++ [new]

lemma find?_upsertBy {α : Type} (sel : α → Bool) (new : α)
    (hnew : sel new = true) :
    ∀ l : List α, (upsertBy sel new l).find? sel = some new := by
  intro l
  induction l with
  | nil => simp [upsertBy, List.find?, hnew]
  | cons hd tl ih =>
    by_cases hhd : sel hd = true
    · have hany : (hd :: tl).any sel = true := by simp [hhd]
      have hup : upsertBy sel new (hd :: tl) =
          new :: tl.map (fun x => if sel x then new else x) := by
        simp [upsertBy, hany, hhd]
      rw [hup, List.find?_cons_of_pos _ hnew]
    · by_cases htl : tl.any sel = true
      · have hany : (hd :: tl).any sel = true := by simp [htl]
        have hup : upsertBy sel new (hd :: tl) =
            hd :: tl.map (fun x => if sel x then new else x) := by
          simp [upsertBy, hany, hhd]
        have htlup : upsertBy sel new tl = tl.map
            (fun x => if sel x then new else x) := by
          simp [upsertBy, htl]
        rw [hup, List.find?_cons_of_neg _ hhd, ← htlup, ih]
      · have hany : ¬ (hd :: tl).any sel = true := by
          simp [List.any_cons, hhd, htl]
        have hup : upsertBy sel new (hd :: tl) = hd :: (tl ++ [new]) := by
          simp [upsertBy, hany]
        have htlup : upsertBy sel new tl = tl ++ [new] := by
          simp [upsertBy, htl]
        rw [hup, List.find?_cons_of_neg _ hhd, ← htlup, ih]

lemma mem_upsertBy {α : Type} (sel : α → Bool) (new : α) (l : List α)
    (x : α) (hx : x ∈ upsertBy sel new l) :
    (x ∈ l ∧ sel x = false) ∨ x = new := by
  by_cases hany : l.any sel = true
  · simp only [upsertBy, hany, if_true, List.mem_map] at hx
    obtain ⟨y, hy, hxy⟩ := hx
    by_cases hmy : sel y = true
    · right
      rw [← hxy, if_pos hmy]
    · left
      rw [← hxy, if_neg hmy]
      exact ⟨hy, by simpa using hmy⟩
  · rw [upsertBy, if_neg hany] at hx
    rw [List.mem_append, List.mem_singleton] at hx
    rcases hx with hx | hx
    · left
      refine ⟨hx, ?_⟩
      rcases Bool.eq_false_or_eq_true (sel x) with h | h
      · exact absurd (List.any_eq_true.mpr ⟨x, hx, h⟩) hany
      · exact h
    · right
      exact hx

lemma countP_map_replace {α : Type} (P sel : α → Bool) (new : α) :
    ∀ l : List α, (∀ x ∈ l, sel x = true → P x = P new) →
      (l.map (fun x => if sel x then new else x)).countP P =
        l.countP P := by
  intro l
  induction l with
  | nil => simp
  | cons hd tl ih =>
    intro hsame
    have htl := ih (fun x hx h => hsame x (List.mem_cons_of_mem hd hx) h)
    by_cases hhd : sel hd = true
    · simp only [List.map_cons, if_pos hhd, List.countP_cons, htl,
        hsame hd (List.mem_cons_self hd tl) hhd]
    · simp only [List.map_cons, if_neg hhd, List.countP_cons, htl]

lemma countP_keyMatch_le_one {α : Type} (k : α → String) (key : String) :
    ∀ l : List α, (l.map k).Nodup →
      l.countP (fun x => k x == key) ≤ 1 := by
  intro l
  induction l with
  | nil => simp
  | cons hd tl ih =>
    intro hnodup
    rw [List.map_cons, List.nodup_cons] at hnodup
    by_cases hhd : (k hd == key) = true
    · have hk : k hd = key := by simpa using hhd
      have hzero : tl.countP (fun x => k x == key) = 0 := by
        rw [List.countP_eq_zero]
        intro x hx
        simp only [beq_iff_eq]
        intro hxk
        exact hnodup.1 (by
          rw [← hk] at hxk
          exact hxk ▸ List.mem_map_of_mem k hx)
      simp [List.countP_cons, hhd, hzero]
    · have := ih hnodup.2
      simp only [List.countP_cons, hhd]
      simpa using this

lemma find?_eraseP_of_countP_le_one {α : Type} (p : α → Bool) :
    ∀ l : List α, l.countP p ≤ 1 → (l.eraseP p).find? p = none := by
  intro l
  induction l with
  | nil => simp
  | cons hd tl ih =>
    intro hcount
    by_cases hhd : p hd = true
    · rw [List.eraseP_cons_of_pos hhd]
      rw [List.countP_cons, if_pos hhd] at hcount
      have hzero : tl.countP p = 0 := by omega
      rw [List.find?_eq_none]
      intro x hx
      have := List.countP_eq_zero.mp hzero x hx
      simpa using this
    · rw [List.eraseP_cons_of_neg hhd]
      rw [List.countP_cons, if_neg hhd] at hcount
      rw [List.find?_cons_of_neg _ hhd]
      exact ih (by omega)

/-- State of one RateLimiter instance (src/utils/retry.py lines 121-127):
the configured calls_per_minute and the stamp of the last permitted
call (initially 0). -/
structure RateLimiter where
  calls_per_minute : Nat
  last_call_time : ℚ

/-- Derived minimum spacing of the limiter:
min_interval = 60 / calls_per_minute (src/utils/retry.py line 126). -/
def RateLimiter.min_interval (rl : RateLimiter) : ℚ :=
  60 / (rl.calls_per_minute : ℚ)

/-- RateLimiter.wait_if_needed (src/utils/retry.py lines 129-139) with
the wall clock passed explicitly and time.sleep modelled as exact:
returns the instant at which the caller proceeds — now itself when at
least min_interval has passed since the last call, otherwise now plus the
remaining delta — together with the limiter carrying the proceed instant
as its new last_call_time (the code stamps time.time() after the
sleep). -/
def RateLimiter.wait_if_needed (rl : RateLimiter) (now : ℚ) :
    ℚ × RateLimiter :=
  let time_since_last_call := now - rl.last_call_time
  if time_since_last_call < rl.min_interval then
    let sleep_time := rl.min_interval - time_since_last_call
    let proceed := now + sleep_time
    (proceed, { rl with last_call_time := proceed })
  else
    (now, { rl with last_call_time := now })

/-- Proceed instants of a sequence of acquisitions performed one after the
other on one limiter instance, the n-th acquisition arriving when the wall
clock reads the n-th element of the list. -/
def RateLimiter.runAcquisitions (rl : RateLimiter) : List ℚ → List ℚ
  | [] => []
  | t :: ts =>
    let step := rl.wait_if_needed t
    step.1 :: step.2.runAcquisitions ts

lemma wait_if_needed_spacing (rl : RateLimiter) (now : ℚ) :
    rl.min_interval ≤ (rl.wait_if_needed now).1 - rl.last_call_time := by
  unfold RateLimiter.wait_if_needed
  by_cases h : now - rl.last_call_time < rl.min_interval
  · simp only [h, if_true]
    linarith
  · simp only [h, if_false]
    linarith [not_lt.mp h]

lemma wait_if_needed_stamp (rl : RateLimiter) (now : ℚ) :
    ((rl.wait_if_needed now).2).last_call_time = (rl.wait_if_needed now).1 ∧
    ((rl.wait_if_needed now).2).calls_per_minute = rl.calls_per_minute := by
  unfold RateLimiter.wait_if_needed
  by_cases h : now - rl.last_call_time < rl.min_interval
  · simp [h]
  · simp [h]

lemma runAcquisitions_head (rl : RateLimiter) (ts : List ℚ) (p : ℚ)
    (hp : (rl.runAcquisitions ts).head? = some p) :
    rl.last_call_time + rl.min_interval ≤ p := by
  cases ts with
  | nil => simp [RateLimiter.runAcquisitions] at hp
  | cons t ts =>
    simp only [RateLimiter.runAcquisitions, List.head?_cons,
      Option.some.injEq] at hp
    have := wait_if_needed_spacing rl t
    linarith [hp ▸ this]

lemma runAcquisitions_chain (ts : List ℚ) :
    ∀ rl : RateLimiter,
      List.Chain' (fun a b => a + rl.min_interval ≤ b)
        (rl.runAcquisitions ts) := by
  induction ts with
  | nil =>
    intro rl
    simp [RateLimiter.runAcquisitions]
  | cons t ts ih =>
    intro rl
    simp only [RateLimiter.runAcquisitions]
    refine List.chain'_cons'.mpr ⟨?_, ?_⟩
    · intro q hq
      have hstamp := wait_if_needed_stamp rl t
      have hhead := runAcquisitions_head (rl.wait_if_needed t).2 ts q hq
      rw [hstamp.1] at hhead
      have hmi : ((rl.wait_if_needed t).2).min_interval = rl.min_interval := by
        unfold RateLimiter.min_interval
        rw [hstamp.2]
      rw [hmi] at hhead
      linarith
    · have := ih (rl.wait_if_needed t).2
      have hmi : ((rl.wait_if_needed t).2).min_interval = rl.min_interval := by
        unfold RateLimiter.min_interval
        rw [(wait_if_needed_stamp rl t).2]
      rw [hmi] at this
      exact this

/-- C9: the rate limiter spaces permitted calls by at least
min_interval = 60 / calls_per_minute: a single acquisition proceeds at
least min_interval after the stored last-call stamp — blocked for exactly
the remaining delta when it arrives early, not blocked otherwise — and the
new last-call stamp is the proceed instant; consequently, over any
sequence of acquisitions on one instance, consecutive proceed instants are
separated by at least min_interval. -/
theorem C9_rate_limiter (rl : RateLimiter) (now : ℚ) (ts : List ℚ) :
    rl.min_interval = 60 / (rl.calls_per_minute : ℚ) ∧
    rl.min_interval ≤ (rl.wait_if_needed now).1 - rl.last_call_time ∧
    (now - rl.last_call_time < rl.min_interval →
      (rl.wait_if_needed now).1 =
        now + (rl.min_interval - (now - rl.last_call_time))) ∧
    (¬ now - rl.last_call_time < rl.min_interval →
      (rl.wait_if_needed now).1 = now) ∧
    ((rl.wait_if_needed now).2).last_call_time = (rl.wait_if_needed now).1 ∧
    List.Chain' (fun a b => a + rl.min_interval ≤ b)
      (rl.runAcquisitions ts) := by
  refine ⟨rfl, wait_if_needed_spacing rl now, ?_, ?_,
    (wait_if_needed_stamp rl now).1, runAcquisitions_chain ts rl⟩
  · intro h
    unfold RateLimiter.wait_if_needed
    simp [h]
  · intro h
    unfold RateLimiter.wait_if_needed
    simp [h]

/-- C9 (witness): the limiter at 60 calls per minute, last call at 0, and
an acquisition arriving at 1/2 — the early-arrival clause applies since
1/2 < min_interval = 1. -/
theorem C9_rate_limiter_witness :
    ((RateLimiter.mk 60 0).wait_if_needed (1/2)).1 =
      1/2 + ((RateLimiter.mk 60 0).min_interval - (1/2 - 0)) :=
  ((C9_rate_limiter (RateLimiter.mk 60 0) (1/2) []).2.2.1 (by
    show (1:ℚ)/2 - 0 < 60 / ((60:Nat) : ℚ)
    norm_num))

/-- Entry of the CacheManager dict (src/utils/async_processor.py lines
135-140): the cached value together with its insertion timestamp. -/
structure CacheEntry (V : Type) where
  value : V
  timestamp : ℚ

/-- State of one CacheManager instance (src/utils/async_processor.py
lines 116-121): the configured ttl_seconds and the key → entry dict,
modelled as an association list with unique keys. -/
structure CacheManager (V : Type) where
  ttl_seconds : ℚ
  cache : List (String × CacheEntry V)

/-- CacheManager.get (src/utils/async_processor.py lines 123-133) with
the wall clock passed explicitly: on a present entry that is still fresh
(now - timestamp < ttl) return its value and leave the dict unchanged; on
a present expired entry delete it and return nothing; on an absent key
return nothing. -/
def CacheManager.get {V : Type} (c : CacheManager V) (key : String)
    (now : ℚ) : Option V × CacheManager V :=
  match c.cache.find? (fun p => p.1 == key) with
  | some p =>
    if now - p.2.timestamp < c.ttl_seconds then (some p.2.value, c)
    else (none, { c with cache := c.cache.eraseP (fun q => q.1 == key) })
  | none => (none, c)

/-- CacheManager.set (src/utils/async_processor.py lines 135-141):
unconditional dict insert-or-overwrite with a fresh timestamp. -/
def CacheManager.set {V : Type} (c : CacheManager V) (key : String)
    (value : V) (now : ℚ) : CacheManager V :=
  ⟨c.ttl_seconds,
    upsertBy (fun p => p.1 == key) (key, ⟨value, now⟩) c.cache⟩

lemma keys_nodup_upsertBy {α : Type} (k : α → String) (key : String)
    (new : α) (hknew : k new = key) (l : List α)
    (h : (l.map k).Nodup) :
    ((upsertBy (fun x => k x == key) new l).map k).Nodup := by
  by_cases hany : l.any (fun x => k x == key) = true
  · have hsame : (upsertBy (fun x => k x == key) new l).map k = l.map k := by
      rw [upsertBy, if_pos hany, List.map_map]
      refine List.map_congr_left ?_
      intro x _
      by_cases hx : (k x == key) = true
      · simp only [Function.comp_apply, hx, if_true, hknew]
        exact (beq_iff_eq.mp hx).symm
      · simp only [Function.comp_apply]
        rw [if_neg hx]
    rw [hsame]
    exact h
  · rw [upsertBy, if_neg hany, List.map_append]
    rw [List.nodup_append]
    refine ⟨h, by simp, ?_⟩
    intro a ha
    simp only [List.map_cons, List.map_nil, List.mem_singleton]
    intro hb
    rw [hb, hknew] at ha
    obtain ⟨x, hx, hkx⟩ := List.mem_map.mp ha
    exact hany (List.any_eq_true.mpr ⟨x, hx, by simp [hkx]⟩)

lemma cache_get_set_fresh {V : Type} (c : CacheManager V) (key : String)
    (v : V) (now t : ℚ) (h : t - now < c.ttl_seconds) :
    (c.set key v now).get key t = (some v, c.set key v now) := by
  have hfind : ((c.set key v now).cache).find? (fun p => p.1 == key) =
      some (key, ⟨v, now⟩) :=
    find?_upsertBy _ _ (by simp) c.cache
  simp only [CacheManager.get, hfind]
  rw [show (c.set key v now).ttl_seconds = c.ttl_seconds from rfl, if_pos h]

lemma cache_get_set_stale {V : Type} (c : CacheManager V) (key : String)
    (v : V) (now t : ℚ) (h : ¬ t - now < c.ttl_seconds)
    (hnodup : (c.cache.map Prod.fst).Nodup) :
    ((c.set key v now).get key t).1 = none ∧
    (((c.set key v now).get key t).2).cache.find?
      (fun q => q.1 == key) = none ∧
    (((c.set key v now).get key t).2).ttl_seconds = c.ttl_seconds := by
  have hfind : ((c.set key v now).cache).find? (fun p => p.1 == key) =
      some (key, ⟨v, now⟩) :=
    find?_upsertBy _ _ (by simp) c.cache
  have hkeys : (((c.set key v now).cache).map Prod.fst).Nodup := by
    rw [show (c.set key v now).cache =
      upsertBy (fun p => p.1 == key) (key, ⟨v, now⟩) c.cache from rfl]
    exact keys_nodup_upsertBy Prod.fst key (key, ⟨v, now⟩) rfl c.cache hnodup
  have hcount : ((c.set key v now).cache).countP (fun q => q.1 == key) ≤ 1 :=
    countP_keyMatch_le_one Prod.fst key _ hkeys
  simp only [CacheManager.get, hfind]
  rw [show (c.set key v now).ttl_seconds = c.ttl_seconds from rfl, if_neg h]
  exact ⟨rfl, find?_eraseP_of_countP_le_one _ _ hcount, rfl⟩

/-- C7: the cache get returns the stored value exactly when an entry for
the key is present and now - inserted_at < ttl, and on a present stale
entry it removes the entry and returns nothing; set followed by an
immediate get returns the value just stored; once ttl has elapsed since
the set, get returns nothing and the entry is fully removed from the map,
and a subsequent set/get pair on the same key works again. -/
theorem C7_cache {V : Type} (c : CacheManager V) (key : String) (now : ℚ)
    (v : V) (hnodup : (c.cache.map Prod.fst).Nodup)
    (httl : 0 < c.ttl_seconds) :
    ((c.get key now).1 = some v ↔
      ∃ p, c.cache.find? (fun q => q.1 == key) = some p ∧ p.2.value = v ∧
        now - p.2.timestamp < c.ttl_seconds) ∧
    (∀ p, c.cache.find? (fun q => q.1 == key) = some p →
      ¬ now - p.2.timestamp < c.ttl_seconds →
      (c.get key now).1 = none ∧
      ((c.get key now).2).cache.find? (fun q => q.1 == key) = none) ∧
    (c.cache.find? (fun q => q.1 == key) = none →
      c.get key now = (none, c)) ∧
    ((c.set key v now).get key now = (some v, c.set key v now)) ∧
    (((c.set key v now).get key (now + c.ttl_seconds)).1 = none ∧
     (((c.set key v now).get key (now + c.ttl_seconds)).2).cache.find?
        (fun q => q.1 == key) = none ∧
     ∀ v2 : V, ∀ t2 : ℚ,
       ((((c.set key v now).get key (now + c.ttl_seconds)).2).set key v2
           t2).get key t2 =
         (some v2,
           (((c.set key v now).get key (now + c.ttl_seconds)).2).set key v2
             t2)) := by
  refine ⟨?_, ?_, ?_, ?_, ?_, ?_, ?_⟩
  · cases hfind : c.cache.find? (fun q => q.1 == key) with
    | none =>
      simp only [CacheManager.get, hfind]
      constructor
      · intro h
        exact absurd h (by simp)
      · rintro ⟨p, hp, -, -⟩
        exact absurd hp (by simp)
    | some p =>
      simp only [CacheManager.get, hfind]
      by_cases hfresh : now - p.2.timestamp < c.ttl_seconds
      · rw [if_pos hfresh]
        simp only [Option.some.injEq]
        constructor
        · intro h
          exact ⟨p, rfl, h, hfresh⟩
        · rintro ⟨q, hq, hval, -⟩
          have hq' : p = q := by simpa using hq
          rw [hq']
          exact hval
      · rw [if_neg hfresh]
        simp only
        constructor
        · intro h
          exact absurd h (by simp)
        · rintro ⟨q, hq, -, hfr⟩
          have hq' : p = q := by simpa using hq
          rw [hq'] at hfresh
          exact absurd hfr hfresh
  · intro p hfind hstale
    have hcount : c.cache.countP (fun q => q.1 == key) ≤ 1 :=
      countP_keyMatch_le_one Prod.fst key c.cache hnodup
    simp only [CacheManager.get, hfind]
    rw [if_neg hstale]
    exact ⟨rfl, find?_eraseP_of_countP_le_one _ _ hcount⟩
  · intro hfind
    simp only [CacheManager.get, hfind]
  · exact cache_get_set_fresh c key v now now (by linarith)
  · exact (cache_get_set_stale c key v now (now + c.ttl_seconds)
      (by linarith) hnodup).1
  · exact (cache_get_set_stale c key v now (now + c.ttl_seconds)
      (by linarith) hnodup).2.1
  · intro v2 t2
    have hstale := cache_get_set_stale c key v now (now + c.ttl_seconds)
      (by linarith) hnodup
    have httl2 : t2 - t2 <
        ((((c.set key v now).get key (now + c.ttl_seconds)).2)).ttl_seconds := by
      rw [hstale.2.2]
      linarith
    exact cache_get_set_fresh _ key v2 t2 t2 httl2

/-- C7 (witness): a fresh cache with ttl 10 at concrete instants — the
set-then-get clause applied at key k, value 5, time 0. -/
theorem C7_cache_witness :
    ((⟨10, []⟩ : CacheManager Nat).set "k" 5 0).get "k" 0 =
      (some 5, (⟨10, []⟩ : CacheManager Nat).set "k" 5 0) :=
  (C7_cache (⟨10, []⟩ : CacheManager Nat) "k" 0 5 (by simp)
    (by norm_num)).2.2.2.1

/-- Value inside a json-encoded column payload: a boolean, a string, or
null — enough to express what the code writes (the migration sentinel, the
duplicate flag, history details, analyzed-paper fields). -/
inductive MetaVal where
  | boolVal (b : Bool)
  | strVal (s : String)
  | noneVal
  deriving DecidableEq

/-- Opaque structured payload stored json-encoded in the metadata and
details columns, modelling the python dict handed to json.dumps. -/
abbrev Meta : Type := List (String × MetaVal)

/-- Row of the processed_files table (src/utils/database.py lines 21-31):
file_id is the primary key; status holds the literal strings the code
writes ("completed" or "failed"). -/
structure ProcessingRecord where
  file_id : String
  file_name : String
  processed_at : ℚ
  notion_page_id : Option String
  status : String
  error_message : Option String
  metadata : Option Meta
  deriving DecidableEq

/-- Row of the append-only processing_history table
(src/utils/database.py lines 33-42). -/
structure HistoryEntry where
  file_id : String
  action : String
  timestamp : ℚ
  details : Option Meta
  deriving DecidableEq

/-- State of the FileTrackingDatabase: the processed_files table, keyed by
file_id (INSERT OR REPLACE on the primary key is modelled as
replace-or-append), and the processing_history table. -/
structure FileTrackingDatabase where
  processed_files : List ProcessingRecord
  processing_history : List HistoryEntry
  deriving DecidableEq

/-- The metadata sentinel written by the migration path:
json {migrated: true} (src/utils/database.py line 212). -/
def migratedSentinel : Meta := [("migrated", MetaVal.boolVal true)]

/-- The metadata flag written on a duplicate-create skip:
json {duplicate: true} (main_refactored.py line 150). -/
def duplicateSentinel : Meta := [("duplicate", MetaVal.boolVal true)]

/-- FileTrackingDatabase.mark_as_processed (src/utils/database.py lines
81-106): INSERT OR REPLACE of a completed row — the error_message column
is not named in the INSERT, so it is NULL in the new row — followed by a
history entry tagged processed whose details carry the notion_page_id. -/
def mark_as_processed (db : FileTrackingDatabase)
    (file_id file_name : String) (notion_page_id : Option String)
    (metadata : Option Meta) (now : ℚ) : FileTrackingDatabase :=
  ⟨upsertBy (fun r => r.file_id == file_id)
      ⟨file_id, file_name, now, notion_page_id, "completed", none, metadata⟩
      db.processed_files,
   db.processing_history ++
     [⟨file_id, "processed", now,
       some [("notion_page_id",
         match notion_page_id with
         | some s => MetaVal.strVal s
         | none => MetaVal.noneVal)]⟩]⟩

/-- FileTrackingDatabase.mark_as_failed (src/utils/database.py lines
108-131): INSERT OR REPLACE of a failed row — the notion_page_id and
metadata columns are not named in the INSERT, so they are NULL in the new
row — followed by a history entry tagged failed carrying the error. -/
def mark_as_failed (db : FileTrackingDatabase)
    (file_id file_name error_message : String) (now : ℚ) :
    FileTrackingDatabase :=
  ⟨upsertBy (fun r => r.file_id == file_id)
      ⟨file_id, file_name, now, none, "failed", some error_message, none⟩
      db.processed_files,
   db.processing_history ++
     [⟨file_id, "failed", now,
       some [("error", MetaVal.strVal error_message)]⟩]⟩

/-- FileTrackingDatabase.is_processed (src/utils/database.py lines
72-79): a row with this file_id and status completed exists. -/
def is_processed (db : FileTrackingDatabase) (file_id : String) : Bool :=
  db.processed_files.any
    (fun r => r.file_id == file_id && r.status == "completed")

/-- FileTrackingDatabase.get_failed_files (src/utils/database.py lines
133-144): the failed rows whose processed_at plus retry_after_hours is not
after the current instant, ordered by processed_at ascending. -/
def get_failed_files (db : FileTrackingDatabase)
    (retry_after_hours now : ℚ) : List ProcessingRecord :=
  (db.processed_files.filter
      (fun r => r.status == "failed" &&
        decide (r.processed_at + retry_after_hours ≤ now))).mergeSort
    (fun a b => decide (a.processed_at ≤ b.processed_at))

/-- C10: mark_as_failed replaces the entire row for the item id rather
than updating only the status columns: afterwards the row holds exactly
the id, name, timestamp, status failed and error message, with
notion_page_id and metadata NULL — whatever row (if any) was there
before. -/
theorem C10_mark_as_failed_replaces_row (db : FileTrackingDatabase)
    (file_id file_name error_message : String) (now : ℚ) :
    ((mark_as_failed db file_id file_name error_message
        now).processed_files).find? (fun r => r.file_id == file_id) =
      some ⟨file_id, file_name, now, none, "failed", some error_message,
        none⟩ :=
  find?_upsertBy _ _ (by simp) _

/-- C10 (witness): replacing a previously completed row with populated
notion_page_id and metadata at a concrete input. -/
theorem C10_mark_as_failed_replaces_row_witness :
    ((mark_as_failed
        ⟨[⟨"f1", "paper.pdf", 0, some "page-9", "completed", none,
            some [("title", MetaVal.strVal "T")]⟩], []⟩
        "f1" "paper.pdf" "boom" 5).processed_files).find?
      (fun r => r.file_id == "f1") =
      some ⟨"f1", "paper.pdf", 5, none, "failed", some "boom", none⟩ :=
  C10_mark_as_failed_replaces_row
    ⟨[⟨"f1", "paper.pdf", 0, some "page-9", "completed", none,
        some [("title", MetaVal.strVal "T")]⟩], []⟩
    "f1" "paper.pdf" "boom" 5

/-- C5: a failed record is in get_failed_files h exactly when now minus
its processed_at is at least h, and the returned sequence is ordered by
processed_at ascending (oldest failure first). -/
theorem C5_failed_ready_for_retry (db : FileTrackingDatabase)
    (h now : ℚ) (r : ProcessingRecord) (hr : r ∈ db.processed_files)
    (hst : r.status = "failed") :
    (r ∈ get_failed_files db h now ↔ h ≤ now - r.processed_at) ∧
    List.Sorted (fun a b : ProcessingRecord =>
      a.processed_at ≤ b.processed_at) (get_failed_files db h now) := by
  constructor
  · rw [get_failed_files]
    rw [(List.mergeSort_perm _ _).mem_iff, List.mem_filter]
    constructor
    · rintro ⟨-, hp⟩
      rw [Bool.and_eq_true, decide_eq_true_eq] at hp
      linarith [hp.2]
    · intro hle
      refine ⟨hr, ?_⟩
      rw [Bool.and_eq_true, decide_eq_true_eq]
      exact ⟨by simp [hst], by linarith⟩
  · have hpw := @List.sorted_mergeSort ProcessingRecord
      (fun a b : ProcessingRecord =>
        decide (a.processed_at ≤ b.processed_at))
      (fun a b c hab hbc => by
        rw [decide_eq_true_eq] at hab hbc ⊢
        linarith)
      (fun a b => by
        rw [Bool.or_eq_true, decide_eq_true_eq, decide_eq_true_eq]
        exact le_total _ _)
      (db.processed_files.filter
        (fun q => q.status == "failed" &&
          decide (q.processed_at + h ≤ now)))
    exact hpw.imp (fun hab => by rwa [decide_eq_true_eq] at hab)

/-- C5 (witness): a database with an old and a recent failure, queried
with h = 24 at time 30 — the old one (failed at 0) qualifies. -/
theorem C5_failed_ready_for_retry_witness :
    ((⟨"old", "o.pdf", 0, none, "failed", some "e", none⟩ :
        ProcessingRecord) ∈
      get_failed_files
        ⟨[⟨"old", "o.pdf", 0, none, "failed", some "e", none⟩,
          ⟨"new", "n.pdf", 29, none, "failed", some "e", none⟩], []⟩
        24 30 ↔ (24 : ℚ) ≤ 30 - 0) ∧
    List.Sorted (fun a b : ProcessingRecord =>
      a.processed_at ≤ b.processed_at)
      (get_failed_files
        ⟨[⟨"old", "o.pdf", 0, none, "failed", some "e", none⟩,
          ⟨"new", "n.pdf", 29, none, "failed", some "e", none⟩], []⟩
        24 30) :=
  C5_failed_ready_for_retry
    ⟨[⟨"old", "o.pdf", 0, none, "failed", some "e", none⟩,
      ⟨"new", "n.pdf", 29, none, "failed", some "e", none⟩], []⟩
    24 30 ⟨"old", "o.pdf", 0, none, "failed", some "e", none⟩
    (by simp) rfl

/-- Python's default whitespace for str.strip(). -/
def isSpaceChar (c : Char) : Bool :=
  (c == ' ') || (c == '\t') || (c == '\n') || (c == '\r') ||
    (c == '\x0b') || (c == '\x0c')

/-- Structural model of python's line.strip(): remove whitespace from both
ends of the string. -/
def pyStrip (s : String) : String :=
  ⟨((s.data.dropWhile isSpaceChar).reverse.dropWhile isSpaceChar).reverse⟩

/-- Number of completed rows in the processed_files table. -/
def completedCount (db : FileTrackingDatabase) : Nat :=
  db.processed_files.countP (fun r => r.status == "completed")

/-- One loop iteration of migrate_from_text_file (src/utils/database.py
lines 206-213): strip the line and, when non-empty, mark the id completed
with file name "Migrated file <id>" and the migration sentinel
metadata. -/
def migrateStep (db : FileTrackingDatabase) (line : String) (now : ℚ) :
    FileTrackingDatabase :=
  if pyStrip line ≠ "" then
    mark_as_processed db (pyStrip line)
      ("Migrated file " ++ pyStrip line) none (some migratedSentinel) now
  else db

/-- FileTrackingDatabase.migrate_from_text_file (src/utils/database.py
lines 199-217): fold the per-line step over the lines of the legacy file,
returning the updated database together with the count of migrated
(non-empty) lines. -/
def migrate_from_text_file (db : FileTrackingDatabase)
    (lines : List String) (now : ℚ) : FileTrackingDatabase × Nat :=
  lines.foldl
    (fun acc line =>
      if pyStrip line ≠ "" then
        (mark_as_processed acc.1 (pyStrip line)
          ("Migrated file " ++ pyStrip line) none (some migratedSentinel)
          now, acc.2 + 1)
      else acc)
    (db, 0)

/-- Database component of the migration fold, separated from the counter
for the proofs. -/
def migrateDb (db : FileTrackingDatabase) (lines : List String) (now : ℚ) :
    FileTrackingDatabase :=
  lines.foldl (fun d l => migrateStep d l now) db

/-- Ids imported by the migration: the stripped non-empty lines. -/
def importedIds (lines : List String) : List String :=
  (lines.map pyStrip).filter (fun s => decide (s ≠ ""))

lemma migrate_fst_eq (lines : List String) :
    ∀ (db : FileTrackingDatabase) (n : Nat) (now : ℚ),
      (lines.foldl
        (fun acc line =>
          if pyStrip line ≠ "" then
            (mark_as_processed acc.1 (pyStrip line)
              ("Migrated file " ++ pyStrip line) none
              (some migratedSentinel) now, acc.2 + 1)
          else acc)
        (db, n)).1 =
      migrateDb db lines now := by
  induction lines with
  | nil =>
    intro db n now
    rfl
  | cons l ls ih =>
    intro db n now
    by_cases hl : pyStrip l ≠ ""
    · simp only [List.foldl_cons, if_pos hl]
      rw [ih]
      show migrateDb _ ls now = migrateDb (migrateStep db l now) ls now
      rw [migrateStep, if_pos hl]
    · simp only [List.foldl_cons, if_neg hl]
      rw [ih]
      show migrateDb db ls now = migrateDb (migrateStep db l now) ls now
      rw [migrateStep, if_neg hl]

lemma migrate_from_text_file_fst (db : FileTrackingDatabase)
    (lines : List String) (now : ℚ) :
    (migrate_from_text_file db lines now).1 = migrateDb db lines now :=
  migrate_fst_eq lines db 0 now

/-- All rows keyed by this id (at least one exists) are completed. -/
def keyCompleted (db : FileTrackingDatabase) (id : String) : Prop :=
  (∃ r ∈ db.processed_files, r.file_id = id) ∧
  (∀ r ∈ db.processed_files, r.file_id = id → r.status = "completed")

/-- A completed row with the migration sentinel exists for this id. -/
def keyMigrated (db : FileTrackingDatabase) (id : String) : Prop :=
  ∃ r ∈ db.processed_files, r.file_id = id ∧ r.status = "completed" ∧
    r.metadata = some migratedSentinel

lemma mem_upsertBy_self {α : Type} (sel : α → Bool) (new : α)
    (l : List α) : new ∈ upsertBy sel new l := by
  by_cases hany : l.any sel = true
  · rw [upsertBy, if_pos hany]
    obtain ⟨y, hy, hsy⟩ := List.any_eq_true.mp hany
    exact List.mem_map.mpr ⟨y, hy, by rw [if_pos hsy]⟩
  · rw [upsertBy, if_neg hany]
    simp

lemma mem_upsertBy_of_unmatched {α : Type} (sel : α → Bool) (new : α)
    (l : List α) (x : α) (hx : x ∈ l) (hsel : sel x = false) :
    x ∈ upsertBy sel new l := by
  by_cases hany : l.any sel = true
  · rw [upsertBy, if_pos hany]
    exact List.mem_map.mpr ⟨x, hx, by rw [if_neg (by simp [hsel])]⟩
  · rw [upsertBy, if_neg hany]
    exact List.mem_append_left _ hx

lemma keyCompleted_mark (db : FileTrackingDatabase)
    (fid fname : String) (npid : Option String) (meta : Option Meta)
    (now : ℚ) (id : String) (h : keyCompleted db id) :
    keyCompleted (mark_as_processed db fid fname npid meta now) id := by
  obtain ⟨⟨r0, hr0, hid0⟩, hall⟩ := h
  constructor
  · by_cases hsel : (r0.file_id == fid) = true
    · refine ⟨⟨fid, fname, now, npid, "completed", none, meta⟩,
        mem_upsertBy_self _ _ _, ?_⟩
      have hfid : r0.file_id = fid := by simpa using hsel
      show fid = id
      rw [← hfid, hid0]
    · refine ⟨r0, mem_upsertBy_of_unmatched _ _ _ r0 hr0 ?_, hid0⟩
      simpa using hsel
  · intro r hr hrid
    rcases mem_upsertBy _ _ _ r hr with ⟨hrold, -⟩ | hrnew
    · exact hall r hrold hrid
    · rw [hrnew]

lemma keyCompleted_mark_self (db : FileTrackingDatabase)
    (fid fname : String) (npid : Option String) (meta : Option Meta)
    (now : ℚ) :
    keyCompleted (mark_as_processed db fid fname npid meta now) fid := by
  constructor
  · exact ⟨_, mem_upsertBy_self _ _ _, rfl⟩
  · intro r hr hrid
    rcases mem_upsertBy _ _ _ r hr with ⟨-, hsel⟩ | hrnew
    · exact absurd hrid (by simpa using hsel)
    · rw [hrnew]

lemma completedCount_mark (db : FileTrackingDatabase)
    (fid fname : String) (npid : Option String) (meta : Option Meta)
    (now : ℚ) (h : keyCompleted db fid) :
    completedCount (mark_as_processed db fid fname npid meta now) =
      completedCount db := by
  obtain ⟨⟨r0, hr0, hid0⟩, hall⟩ := h
  have hany : db.processed_files.any (fun r => r.file_id == fid) = true :=
    List.any_eq_true.mpr ⟨r0, hr0, by simp [hid0]⟩
  show (upsertBy (fun r => r.file_id == fid)
      ⟨fid, fname, now, npid, "completed", none, meta⟩
      db.processed_files).countP (fun r => r.status == "completed") =
    db.processed_files.countP (fun r => r.status == "completed")
  rw [upsertBy, if_pos hany]
  refine countP_map_replace _ _ _ db.processed_files ?_
  intro x hx hsel
  have hxid : x.file_id = fid := by simpa using hsel
  have hxst := hall x hx hxid
  simp [hxst]

lemma keyCompleted_migrateStep (db : FileTrackingDatabase)
    (line : String) (now : ℚ) (id : String) (h : keyCompleted db id) :
    keyCompleted (migrateStep db line now) id := by
  rw [migrateStep]
  by_cases hl : pyStrip line ≠ ""
  · rw [if_pos hl]
    exact keyCompleted_mark _ _ _ _ _ _ _ h
  · rwa [if_neg hl]

lemma keyCompleted_migrateDb (lines : List String) :
    ∀ (db : FileTrackingDatabase) (now : ℚ) (id : String),
      keyCompleted db id → keyCompleted (migrateDb db lines now) id := by
  induction lines with
  | nil =>
    intro db now id h
    exact h
  | cons l ls ih =>
    intro db now id h
    exact ih (migrateStep db l now) now id
      (keyCompleted_migrateStep db l now id h)

lemma mem_importedIds_cons (l : String) (ls : List String) (id : String)
    (h : id ∈ importedIds ls) : id ∈ importedIds (l :: ls) := by
  rw [importedIds, List.map_cons, List.filter_cons]
  rw [importedIds] at h
  split
  · exact List.mem_cons_of_mem _ h
  · exact h

lemma keyCompleted_migrateDb_self (lines : List String) :
    ∀ (db : FileTrackingDatabase) (now : ℚ) (id : String),
      id ∈ importedIds lines →
      keyCompleted (migrateDb db lines now) id := by
  induction lines with
  | nil =>
    intro db now id hid
    simp [importedIds] at hid
  | cons l ls ih =>
    intro db now id hid
    rw [importedIds, List.map_cons, List.filter_cons] at hid
    by_cases hl : pyStrip l ≠ ""
    · rw [if_pos (by simpa using hl)] at hid
      rcases List.mem_cons.mp hid with hid | hid
      · subst hid
        refine keyCompleted_migrateDb ls (migrateStep db l now) now _ ?_
        rw [migrateStep, if_pos hl]
        exact keyCompleted_mark_self _ _ _ _ _ _
      · exact ih (migrateStep db l now) now id hid
    · rw [if_neg (by simpa using hl)] at hid
      exact ih (migrateStep db l now) now id hid

lemma completedCount_migrateDb (lines : List String) :
    ∀ (db : FileTrackingDatabase) (now : ℚ),
      (∀ id ∈ importedIds lines, keyCompleted db id) →
      completedCount (migrateDb db lines now) = completedCount db := by
  induction lines with
  | nil =>
    intro db now _
    rfl
  | cons l ls ih =>
    intro db now hinv
    show completedCount (migrateDb (migrateStep db l now) ls now) = _
    have hrest : ∀ id ∈ importedIds ls,
        keyCompleted (migrateStep db l now) id := fun id hid =>
      keyCompleted_migrateStep db l now id
        (hinv id (mem_importedIds_cons l ls id hid))
    rw [ih (migrateStep db l now) now hrest]
    by_cases hl : pyStrip l ≠ ""
    · rw [migrateStep, if_pos hl]
      refine completedCount_mark _ _ _ _ _ _ ?_
      refine hinv (pyStrip l) ?_
      rw [importedIds, List.map_cons, List.filter_cons]
      rw [if_pos (by simpa using hl)]
      exact List.mem_cons_self _ _
    · rw [migrateStep, if_neg hl]

lemma keyMigrated_migrateStep (db : FileTrackingDatabase) (line : String)
    (now : ℚ) (id : String) (h : keyMigrated db id) :
    keyMigrated (migrateStep db line now) id := by
  rw [migrateStep]
  by_cases hl : pyStrip line ≠ ""
  · rw [if_pos hl]
    obtain ⟨r, hr, hid, hst, hmeta⟩ := h
    by_cases heq : pyStrip line = id
    · exact ⟨⟨pyStrip line, "Migrated file " ++ pyStrip line, now, none,
        "completed", none, some migratedSentinel⟩,
        mem_upsertBy_self _ _ _, heq, rfl, rfl⟩
    · refine ⟨r, mem_upsertBy_of_unmatched _ _ _ r hr ?_, hid, hst, hmeta⟩
      rw [hid]
      exact beq_eq_false_iff_ne.mpr (fun hc => heq hc.symm)
  · rwa [if_neg hl]

lemma keyMigrated_migrateDb_preserve (lines : List String) :
    ∀ (db : FileTrackingDatabase) (now : ℚ) (id : String),
      keyMigrated db id → keyMigrated (migrateDb db lines now) id := by
  induction lines with
  | nil =>
    intro db now id h
    exact h
  | cons l ls ih =>
    intro db now id h
    exact ih (migrateStep db l now) now id
      (keyMigrated_migrateStep db l now id h)

lemma keyMigrated_migrateDb (lines : List String) :
    ∀ (db : FileTrackingDatabase) (now : ℚ) (id : String),
      id ∈ importedIds lines → keyMigrated (migrateDb db lines now) id := by
  induction lines with
  | nil =>
    intro db now id hid
    simp [importedIds] at hid
  | cons l ls ih =>
    intro db now id hid
    rw [importedIds, List.map_cons, List.filter_cons] at hid
    by_cases hl : pyStrip l ≠ ""
    · rw [if_pos (by simpa using hl)] at hid
      rcases List.mem_cons.mp hid with hid | hid
      · subst hid
        refine keyMigrated_migrateDb_preserve ls (migrateStep db l now)
          now _ ?_
        rw [migrateStep, if_pos hl]
        exact ⟨_, mem_upsertBy_self _ _ _, rfl, rfl, rfl⟩
      · exact ih (migrateStep db l now) now id hid
    · rw [if_neg (by simpa using hl)] at hid
      exact ih (migrateStep db l now) now id hid

lemma keys_nodup_mark (db : FileTrackingDatabase) (fid fname : String)
    (npid : Option String) (meta : Option Meta) (now : ℚ)
    (h : (db.processed_files.map ProcessingRecord.file_id).Nodup) :
    (((mark_as_processed db fid fname npid meta
        now).processed_files).map ProcessingRecord.file_id).Nodup :=
  keys_nodup_upsertBy ProcessingRecord.file_id fid
    ⟨fid, fname, now, npid, "completed", none, meta⟩ rfl
    db.processed_files h

lemma keys_nodup_migrateDb (lines : List String) :
    ∀ (db : FileTrackingDatabase) (now : ℚ),
      (db.processed_files.map ProcessingRecord.file_id).Nodup →
      (((migrateDb db lines now).processed_files).map
        ProcessingRecord.file_id).Nodup := by
  induction lines with
  | nil =>
    intro db now h
    exact h
  | cons l ls ih =>
    intro db now h
    refine ih (migrateStep db l now) now ?_
    rw [migrateStep]
    by_cases hl : pyStrip l ≠ ""
    · rw [if_pos hl]
      exact keys_nodup_mark _ _ _ _ _ _ h
    · rwa [if_neg hl]

/-- C8: running the legacy migration twice over the same lines leaves the
same number of completed records as running it once; after one run every
imported id has a completed record carrying the migration sentinel
metadata; and when the table's keys were unique to begin with, each
imported id is keyed by at most one record. -/
theorem C8_migration_idempotent (db : FileTrackingDatabase)
    (lines : List String) (now1 now2 : ℚ) :
    completedCount
        (migrate_from_text_file (migrate_from_text_file db lines now1).1
          lines now2).1 =
      completedCount (migrate_from_text_file db lines now1).1 ∧
    (∀ id ∈ importedIds lines,
      ∃ r ∈ ((migrate_from_text_file db lines now1).1).processed_files,
        r.file_id = id ∧ r.status = "completed" ∧
          r.metadata = some migratedSentinel) ∧
    ((db.processed_files.map ProcessingRecord.file_id).Nodup →
      ∀ id : String,
        ((migrate_from_text_file db lines
            now1).1).processed_files.countP
          (fun r => r.file_id == id) ≤ 1) := by
  rw [migrate_from_text_file_fst db lines now1,
    migrate_from_text_file_fst (migrateDb db lines now1) lines now2]
  refine ⟨?_, ?_, ?_⟩
  · exact completedCount_migrateDb lines (migrateDb db lines now1) now2
      (fun id hid => keyCompleted_migrateDb_self lines db now1 id hid)
  · exact fun id hid => keyMigrated_migrateDb lines db now1 id hid
  · intro hnodup id
    exact countP_keyMatch_le_one ProcessingRecord.file_id id _
      (keys_nodup_migrateDb lines db now1 hnodup)

/-- C8 (witness): migrating the legacy list with a duplicate id and a
blank line, into an empty database, at concrete times. -/
theorem C8_migration_idempotent_witness :
    completedCount
        (migrate_from_text_file
          (migrate_from_text_file ⟨[], []⟩ ["f1", "f1", " "] 0).1
          ["f1", "f1", " "] 1).1 =
      completedCount
        (migrate_from_text_file ⟨[], []⟩ ["f1", "f1", " "] 0).1 ∧
    (∃ r ∈ ((migrate_from_text_file ⟨[], []⟩
        ["f1", "f1", " "] 0).1).processed_files,
      r.file_id = "f1" ∧ r.status = "completed" ∧
        r.metadata = some migratedSentinel) ∧
    ((migrate_from_text_file ⟨[], []⟩
        ["f1", "f1", " "] 0).1).processed_files.countP
      (fun r => r.file_id == "f1") ≤ 1 := by
  have h := C8_migration_idempotent ⟨[], []⟩ ["f1", "f1", " "] 0 1
  exact ⟨h.1, h.2.1 "f1" (by decide), h.2.2 (by decide) "f1"⟩

/-- Item handed to the batch processor: the paper dict, of which
_process_single reads the id with paper.get('id', 'unknown'). -/
structure BatchItem where
  id : Option String
  name : Option String
  deriving DecidableEq

/-- paper.get('id', 'unknown') (src/utils/async_processor.py line 64). -/
def BatchItem.getId (p : BatchItem) : String := p.id.getD "unknown"

/-- ProcessingResult (src/utils/async_processor.py lines 10-17). -/
structure ProcessingResult where
  item_id : String
  success : Bool
  result : Option Bool
  error : Option String
  processing_time : ℚ
  deriving DecidableEq

/-- AsyncPaperProcessor._process_single (src/utils/async_processor.py
lines 61-81), with the behaviour of process_func given as its outcome f
and the elapsed wall time as elapsed: a returned value yields a result
with success = bool(value); an exception is captured into a result with
success = false and the message in error — never propagated. -/
def processSingle (f : BatchItem → Except String Bool) (paper : BatchItem)
    (elapsed : ℚ) : ProcessingResult :=
  match f paper with
  | Except.ok r => ⟨paper.getId, r, some r, none, elapsed⟩
  | Except.error e => ⟨paper.getId, false, none, some e, elapsed⟩

/-- Future-consumption loop of process_papers_batch
(src/utils/async_processor.py lines 44-57): consume the completed items in
completion order, collecting each ProcessingResult and recording one
progress_callback(completed, total) invocation with the incremented
running count. -/
def processBatchAux (f : BatchItem → Except String Bool)
    (elapsedOf : BatchItem → ℚ) (total : Nat) :
    List BatchItem → Nat → List ProcessingResult × List (Nat × Nat)
  | [], _ => ([], [])
  | p :: rest, completed =>
    let r := processSingle f p (elapsedOf p)
    let t := processBatchAux f elapsedOf total rest (completed + 1)
    (r :: t.1, (completed + 1, total) :: t.2)

/-- AsyncPaperProcessor.process_papers_batch (src/utils/async_processor.py
lines 27-59): every paper is submitted to the worker pool and the futures
are consumed with as_completed — an arbitrary permutation order of the
submitted papers, scheduling being nondeterministic.  Returns the
collected results and the sequence of progress-callback invocations. -/
def process_papers_batch (papers : List BatchItem)
    (f : BatchItem → Except String Bool) (elapsedOf : BatchItem → ℚ)
    (order : List BatchItem) : List ProcessingResult × List (Nat × Nat) :=
  processBatchAux f elapsedOf papers.length order 0

lemma processSingle_item_id (f : BatchItem → Except String Bool)
    (paper : BatchItem) (elapsed : ℚ) :
    (processSingle f paper elapsed).item_id = paper.getId := by
  rw [processSingle]
  cases f paper with
  | ok r => rfl
  | error e => rfl

lemma processBatchAux_eq (f : BatchItem → Except String Bool)
    (elapsedOf : BatchItem → ℚ) (total : Nat) :
    ∀ (l : List BatchItem) (c : Nat),
      processBatchAux f elapsedOf total l c =
        (l.map (fun p => processSingle f p (elapsedOf p)),
         (List.range l.length).map (fun k => (c + k + 1, total))) := by
  intro l
  induction l with
  | nil =>
    intro c
    rfl
  | cons p rest ih =>
    intro c
    simp only [processBatchAux, ih (c + 1), List.map_cons]
    refine congrArg _ ?_
    rw [List.length_cons, List.range_succ_eq_map, List.map_cons,
      List.map_map]
    refine congrArg₂ _ (by rw [Nat.add_zero]) ?_
    refine List.map_congr_left ?_
    intro k _
    show (c + 1 + k + 1, total) = (c + (k + 1) + 1, total)
    rw [show c + 1 + k = c + (k + 1) by omega]

/-- C6: with pairwise-distinct item ids, process_papers_batch returns
exactly one ProcessingResult per input item — n results in total for n
items, each input id appearing exactly once — a per-item exception is
captured as a result with success = false carrying the message rather
than propagated, and the progress callback is invoked exactly n times
with strictly increasing completed counts (1, n), (2, n), ..., (n, n). -/
theorem C6_process_batch (papers order : List BatchItem)
    (f : BatchItem → Except String Bool) (elapsedOf : BatchItem → ℚ)
    (hperm : order.Perm papers)
    (hnodup : (papers.map BatchItem.getId).Nodup) :
    (process_papers_batch papers f elapsedOf order).1.length =
      papers.length ∧
    (∀ p ∈ papers,
      (process_papers_batch papers f elapsedOf order).1.countP
        (fun r => r.item_id == p.getId) = 1) ∧
    (∀ p ∈ papers, ∀ e, f p = Except.error e →
      (⟨p.getId, false, none, some e, elapsedOf p⟩ : ProcessingResult) ∈
        (process_papers_batch papers f elapsedOf order).1) ∧
    (process_papers_batch papers f elapsedOf order).2 =
      (List.range papers.length).map (fun k => (k + 1, papers.length)) := by
  rw [process_papers_batch, processBatchAux_eq]
  refine ⟨?_, ?_, ?_, ?_⟩
  · simp [hperm.length_eq]
  · intro p hp
    show (order.map (fun q => processSingle f q (elapsedOf q))).countP
        (fun r => r.item_id == p.getId) = 1
    rw [List.countP_map]
    have hpt : ∀ q : BatchItem,
        ((fun r : ProcessingResult => r.item_id == p.getId) ∘
          (fun q => processSingle f q (elapsedOf q))) q =
        (fun q : BatchItem => q.getId == p.getId) q := by
      intro q
      show ((processSingle f q (elapsedOf q)).item_id == p.getId) = _
      rw [processSingle_item_id]
    rw [List.countP_congr (fun q _ => by rw [hpt q])]
    rw [hperm.countP_eq]
    have hmapcount : papers.countP (fun q => q.getId == p.getId) =
        (papers.map BatchItem.getId).countP (fun s => s == p.getId) := by
      rw [List.countP_map]
      rfl
    rw [hmapcount]
    have : (papers.map BatchItem.getId).count p.getId = 1 :=
      List.count_eq_one_of_mem hnodup
        (List.mem_map_of_mem BatchItem.getId hp)
    rw [List.count] at this
    exact this
  · intro p hp e hfe
    have hpo : p ∈ order := hperm.mem_iff.mpr hp
    have : processSingle f p (elapsedOf p) =
        ⟨p.getId, false, none, some e, elapsedOf p⟩ := by
      rw [processSingle, hfe]
    exact this ▸ List.mem_map_of_mem _ hpo
  · show (List.range order.length).map (fun k => (0 + k + 1, papers.length)) = _
    rw [hperm.length_eq]
    refine List.map_congr_left ?_
    intro k _
    rw [Nat.zero_add]

/-- C6 (witness): a two-item batch with distinct ids, completion order
reversed from submission order, and a per-item function that raises on
the second item. -/
theorem C6_process_batch_witness :
    (process_papers_batch
        [⟨some "a", some "A"⟩, ⟨some "b", some "B"⟩]
        (fun p => if p.getId == "a" then Except.ok true
          else Except.error "boom")
        (fun _ => 0)
        [⟨some "b", some "B"⟩, ⟨some "a", some "A"⟩]).1.length = 2 ∧
    ((⟨"b", false, none, some "boom", 0⟩ : ProcessingResult) ∈
      (process_papers_batch
        [⟨some "a", some "A"⟩, ⟨some "b", some "B"⟩]
        (fun p => if p.getId == "a" then Except.ok true
          else Except.error "boom")
        (fun _ => 0)
        [⟨some "b", some "B"⟩, ⟨some "a", some "A"⟩]).1) ∧
    (process_papers_batch
        [⟨some "a", some "A"⟩, ⟨some "b", some "B"⟩]
        (fun p => if p.getId == "a" then Except.ok true
          else Except.error "boom")
        (fun _ => 0)
        [⟨some "b", some "B"⟩, ⟨some "a", some "A"⟩]).2 =
      [(1, 2), (2, 2)] := by
  have h := C6_process_batch
    [⟨some "a", some "A"⟩, ⟨some "b", some "B"⟩]
    [⟨some "b", some "B"⟩, ⟨some "a", some "A"⟩]
    (fun p => if p.getId == "a" then Except.ok true
      else Except.error "boom")
    (fun _ => 0) (by decide) (by decide)
  refine ⟨h.1, ?_, ?_⟩
  · exact h.2.2.1 ⟨some "b", some "B"⟩ (by decide) "boom" rfl
  · rw [h.2.2.2]
    rfl

/-- File handed to the per-item pipeline: file_info's id and name
(main_refactored.py lines 104-105). -/
structure FileInfo where
  id : String
  name : String
  deriving DecidableEq

/-- Behaviour of the external collaborators during one
process_paper_improved call: the outcome each call would produce if
invoked now.  An Except.error carries the exception message; inside ok, a
none (or empty payload) models a python-falsy return value. -/
structure PipelineOracle where
  download : Except String (Option String)
  analyze : Except String (Option Meta)
  checkDuplicate : String → Except String Bool
  createEntry : Except String (Option String)

/-- Mutable application state touched by one process_paper_improved call
(main_refactored.py lines 34-46): tracking database, analysis cache, the
shared rate limiter and the three per-dependency circuit breakers. -/
structure AppState where
  db : FileTrackingDatabase
  cache : CacheManager Meta
  rateLimiter : RateLimiter
  driveCircuit : CircuitBreaker
  geminiCircuit : CircuitBreaker
  notionCircuit : CircuitBreaker

/-- str(e) for the exceptions flowing through the pipeline: the wrapped
exception's own message, or the breaker's OPEN-rejection message. -/
def CBError.message : CBError → String
  | CBError.wrapped e => e
  | CBError.circuitOpenErr _ => "Circuit breaker is OPEN"

/-- Python dict assignment metadata[k] = v. -/
def metaSet (m : Meta) (k : String) (v : MetaVal) : Meta :=
  upsertBy (fun p => p.1 == k) (k, v) m

/-- metadata.get(k, default) read as a string; the fields the pipeline
reads (title) are strings when present. -/
def metaGetStr (m : Meta) (k : String) (default : String) : String :=
  match m.find? (fun p => p.1 == k) with
  | some (_, MetaVal.strVal s) => s
  | some _ => default
  | none => default

/-- Except-branch of process_paper_improved (main_refactored.py lines
174-177): record the failure in the tracking database and return False. -/
def pipelineFail (st : AppState) (file : FileInfo) (msg : String)
    (now : ℚ) : Bool × AppState :=
  (false, { st with db := mark_as_failed st.db file.id file.name msg now })

/-- Tail of the pipeline after the analysis metadata is in hand
(main_refactored.py lines 144-172): stamp the drive file id into the
metadata, consult the duplicate guard with the title — on a duplicate,
mark the file as processed with the duplicate flag and return True — and
otherwise create the entry through the rate limiter and notion breaker,
marking processed on success. -/
def afterAnalysis (st : AppState) (oracle : PipelineOracle)
    (file : FileInfo) (m : Meta) (now : ℚ) : Bool × AppState :=
  let m1 := metaSet m "drive_file_id" (MetaVal.strVal file.id)
  let title := metaGetStr m1 "title" file.name
  match oracle.checkDuplicate title with
  | Except.error e => pipelineFail st file e now
  | Except.ok true =>
    let db1 := mark_as_processed st.db file.id file.name none
      (some duplicateSentinel) now
    (true, { st with db := db1 })
  | Except.ok false =>
    let rl := st.rateLimiter.wait_if_needed now
    let st1 := { st with rateLimiter := rl.2 }
    let ncall := st1.notionCircuit.call now oracle.createEntry
    let st2 := { st1 with notionCircuit := ncall.breaker }
    match ncall.result with
    | Except.error e => pipelineFail st2 file e.message now
    | Except.ok none =>
      pipelineFail st2 file ("Failed to create Notion entry for " ++
        file.name) now
    | Except.ok (some page_id) =>
      let db1 := mark_as_processed st2.db file.id file.name
        (some page_id) (some m1) now
      (true, { st2 with db := db1 })

/-- Cache-miss arm of the analysis step (main_refactored.py lines
131-142): wait on the rate limiter, call the analyzer through the gemini
breaker, cache a truthy result, and raise on a falsy one. -/
def pipelineFresh (st : AppState) (oracle : PipelineOracle)
    (file : FileInfo) (cacheKey : String) (now : ℚ) : Bool × AppState :=
  let rl := st.rateLimiter.wait_if_needed now
  let st1 := { st with rateLimiter := rl.2 }
  let gcall := st1.geminiCircuit.call now oracle.analyze
  let st2 := { st1 with geminiCircuit := gcall.breaker }
  match gcall.result with
  | Except.error e => pipelineFail st2 file e.message now
  | Except.ok metaOpt =>
    match metaOpt with
    | some m =>
      if m.isEmpty then
        pipelineFail st2 file ("Failed to analyze " ++ file.name) now
      else
        let st3 := { st2 with cache := st2.cache.set cacheKey m now }
        afterAnalysis st3 oracle file m now
    | none =>
      pipelineFail st2 file ("Failed to analyze " ++ file.name) now

/-- ImprovedPaperpileNotionSync.process_paper_improved
(main_refactored.py lines 102-177) with the wall clock passed explicitly:
skip files already completed, consult the analysis cache, download through
the drive breaker (a falsy path raises), analyze — from the cache when the
cached value is truthy, else freshly — and finish with the duplicate
guard and the notion create.  Every exception in the try-block lands in
pipelineFail. -/
def process_paper_improved (st : AppState) (oracle : PipelineOracle)
    (file : FileInfo) (now : ℚ) : Bool × AppState :=
  if is_processed st.db file.id then (true, st)
  else
    let cacheKey := "analysis_" ++ file.id
    let cg := st.cache.get cacheKey now
    let st1 := { st with cache := cg.2 }
    let dcall := st1.driveCircuit.call now oracle.download
    let st2 := { st1 with driveCircuit := dcall.breaker }
    match dcall.result with
    | Except.error e => pipelineFail st2 file e.message now
    | Except.ok pdf_path =>
      match pdf_path with
      | none =>
        pipelineFail st2 file ("Failed to download " ++ file.name) now
      | some p =>
        if p == "" then
          pipelineFail st2 file ("Failed to download " ++ file.name) now
        else
          match cg.1 with
          | some m =>
            if m.isEmpty then pipelineFresh st2 oracle file cacheKey now
            else afterAnalysis st2 oracle file m now
          | none => pipelineFresh st2 oracle file cacheKey now

lemma call_closed_ok {A : Type} (cb : CircuitBreaker) (now : ℚ) (a : A)
    (h : cb.state = CBPhase.closed) :
    cb.call now (Except.ok a) = ⟨Except.ok a, cb, true,
      some CBPhase.closed⟩ := by
  rw [CircuitBreaker.call, if_neg (by rw [h]; simp)]
  simp [h]

/-- Fresh application state for the concrete duplicate-skip scenario:
empty database, empty cache with ttl 3600, rate limiter at 60 calls per
minute, default breakers. -/
def freshAppState : AppState :=
  ⟨⟨[], []⟩, ⟨3600, []⟩, ⟨60, 0⟩, CircuitBreaker.init 5 60,
    CircuitBreaker.init 5 60, CircuitBreaker.init 5 60⟩

/-- Collaborator behaviour in which the downstream database reports the
paper's title as already existing: download and analysis succeed and
check_duplicate returns True. -/
def duplicateOracle : PipelineOracle :=
  ⟨Except.ok (some "p.pdf"),
   Except.ok (some [("title", MetaVal.strVal "T")]),
   fun _ => Except.ok true,
   Except.ok (some "page-1")⟩

/-- C2 (counterexample): on a duplicate-create skip the pipeline reports
success and records the item as completed with the duplicate flag —
mark_as_processed, history action processed — so no record_failure row or
history entry exists: the claim that the skip is recorded via
record_failure is false on this run. -/
theorem C2_counterexample :
    (process_paper_improved freshAppState duplicateOracle
        ⟨"f1", "n.pdf"⟩ 0).1 = true ∧
    ((process_paper_improved freshAppState duplicateOracle
        ⟨"f1", "n.pdf"⟩ 0).2).db.processed_files =
      [⟨"f1", "n.pdf", 0, none, "completed", none,
        some duplicateSentinel⟩] ∧
    ((process_paper_improved freshAppState duplicateOracle
        ⟨"f1", "n.pdf"⟩ 0).2).db.processed_files.countP
      (fun r => r.status == "failed") = 0 ∧
    ((process_paper_improved freshAppState duplicateOracle
        ⟨"f1", "n.pdf"⟩ 0).2).db.processing_history.map
      HistoryEntry.action = ["processed"] :=
  ⟨rfl, rfl, rfl, rfl⟩

/-- C2 (amended): when the earlier pipeline steps succeed and the
duplicate guard reports the title as already existing, the item is
recorded in the tracking store via mark_as_processed — status completed
with the duplicate-sentinel metadata and a history entry tagged
processed — not via record_failure, and the per-item call returns True
(no exception escapes, so the batch continues with remaining items). -/
theorem C2_duplicate_skip (st : AppState) (oracle : PipelineOracle)
    (file : FileInfo) (now : ℚ) (path : String) (m : Meta)
    (h1 : is_processed st.db file.id = false)
    (h6 : (st.cache.get ("analysis_" ++ file.id) now).1 = none)
    (h2 : st.driveCircuit.state = CBPhase.closed)
    (hdl : oracle.download = Except.ok (some path))
    (hpath : (path == "") = false)
    (h3 : st.geminiCircuit.state = CBPhase.closed)
    (hana : oracle.analyze = Except.ok (some m))
    (hm : m.isEmpty = false)
    (h7 : oracle.checkDuplicate
        (metaGetStr (metaSet m "drive_file_id" (MetaVal.strVal file.id))
          "title" file.name) = Except.ok true) :
    (process_paper_improved st oracle file now).1 = true ∧
    ((process_paper_improved st oracle file now).2).db =
      mark_as_processed st.db file.id file.name none
        (some duplicateSentinel) now ∧
    ((process_paper_improved st oracle file
        now).2).db.processed_files.find?
        (fun r => r.file_id == file.id) =
      some ⟨file.id, file.name, now, none, "completed", none,
        some duplicateSentinel⟩ ∧
    ((process_paper_improved st oracle file now).2).db.processing_history =
      st.db.processing_history ++
        [⟨file.id, "processed", now,
          some [("notion_page_id", MetaVal.noneVal)]⟩] := by
  have hrun : process_paper_improved st oracle file now =
      (true, { st with
        cache := ((st.cache.get ("analysis_" ++ file.id) now).2).set
          ("analysis_" ++ file.id) m now,
        rateLimiter := (st.rateLimiter.wait_if_needed now).2,
        db := mark_as_processed st.db file.id file.name none
          (some duplicateSentinel) now }) := by
    rw [process_paper_improved]
    rw [if_neg (by rw [h1]; simp)]
    simp only [h6, hdl]
    rw [call_closed_ok st.driveCircuit now (some path) h2]
    simp only [hpath, Bool.false_eq_true, if_false]
    rw [pipelineFresh]
    simp only [hana]
    rw [call_closed_ok st.geminiCircuit now (some m) h3]
    simp only [hm, Bool.false_eq_true, if_false]
    rw [afterAnalysis]
    simp only [h7]
  rw [hrun]
  refine ⟨rfl, rfl, ?_, rfl⟩
  exact find?_upsertBy _ _ (by simp) _

/-- C2 (witness): the amended duplicate-skip behaviour at the concrete
fresh state and duplicate-reporting collaborators. -/
theorem C2_duplicate_skip_witness :
    (process_paper_improved freshAppState duplicateOracle
        ⟨"f1", "n.pdf"⟩ 0).1 = true ∧
    ((process_paper_improved freshAppState duplicateOracle
        ⟨"f1", "n.pdf"⟩ 0).2).db =
      mark_as_processed freshAppState.db "f1" "n.pdf" none
        (some duplicateSentinel) 0 :=
  ⟨(C2_duplicate_skip freshAppState duplicateOracle ⟨"f1", "n.pdf"⟩ 0
      "p.pdf" [("title", MetaVal.strVal "T")] rfl rfl rfl rfl rfl rfl rfl
      rfl rfl).1,
   (C2_duplicate_skip freshAppState duplicateOracle ⟨"f1", "n.pdf"⟩ 0
      "p.pdf" [("title", MetaVal.strVal "T")] rfl rfl rfl rfl rfl rfl rfl
      rfl rfl).2.1⟩

end LLMSum
